import Mathlib

/-!
Shallow embedding of the `orgstats` aggregation core
(src/orgstats/stats.go and the cmd-level list splitting).

Modelling conventions:
* Go `time.Time` instants are `Int` (seconds); the zero time / "no cutoff"
  is `Option.none`, so `since : Option Int` and `since.IsZero()` is
  `since.isNone`.
* Go `time.Duration` sleeps are `Int` seconds (5 * time.Second ↦ 5).
* Go pointers to counters (`*int` in `github.WeeksStats`) are `Option Int`;
  dereferencing `none` is the panic branch, so operations that dereference
  return `Option`.
* The upstream API is a stream of responses, one per issued HTTP call:
  each retry loop consumes the stream element by element.  An exhausted
  stream yields `none` (the loop is still running); this makes the
  unbounded Go retry loops structurally recursive.
* The Go `map[string]Stat` is an association list with lookup defaulting
  to the zero `Stat`, exactly like a Go map read.
-/

set_option linter.unusedVariables false

namespace OrgStats

/-- One upstream response, as classified by the Go error handling:
success, `*github.RateLimitError` (primary, carries the reset time),
a secondary/abuse rate limit (carries the retry-after time),
`*github.AcceptedError` (HTTP 202, stats not ready), or any other
terminal error. -/
inductive Signal (α : Type) where
  | ok (value : α)
  | rateLimit (resetAt : Int)
  | secondaryLimit (retryAfter : Int)
  | accepted
  | err (msg : String)
deriving DecidableEq

/-- One page of a paginated listing: the items plus the `resp.NextPage`
cursor (0 means last page). -/
structure Page (α : Type) where
  items : List α
  nextPage : Nat
deriving DecidableEq

/-- `handleRateLimit` (stats.go:440-447): computes the sleep duration
`s := err.Rate.Reset.UTC().Sub(time.Now().UTC()); if s < 0 { s = 5s }`
and sleeps it.  Returns the duration slept. -/
def handleRateLimit (resetAt now : Int) : Int :=
  let s := resetAt - now
  if s < 0 then 5 else s

/-- `handleSecondaryRateLimit` (stats.go:449-456): sleep duration
`s := err.RetryAfter.UTC().Sub(time.Now().UTC()); if s < 0 { s = 10s }`. -/
def handleSecondaryRateLimit (retryAfter now : Int) : Int :=
  let s := retryAfter - now
  if s < 0 then 10 else s

/-- Modelled from the spec: the sleep duration the spec ascribes to the
primary-rate-limit handler, `max(resetAt - now, 5s)`.  Used only to compare
the spec's words with `handleRateLimit`. -/
def specPrimarySleep (resetAt now : Int) : Int :=
  max (resetAt - now) 5

/-- Modelled from the spec: the sleep duration the spec ascribes to the
secondary-rate-limit handler, `max(retryAfter - now, 10s)`. -/
def specSecondarySleep (retryAfter now : Int) : Int :=
  max (retryAfter - now) 10

/-- `search` (stats.go:154-180): issues `client.Search.Issues`, retries on
primary rate limit (after `handleRateLimit`), on secondary rate limit
(after `handleSecondaryRateLimit`) and on `AcceptedError` (immediately);
any other error is wrapped with the query and returned; on success the
total count is returned.  The first component of the result is the list
of sleep durations performed, in order. -/
def searchLoop (query : String) (now : Int) (sleeps : List Int) :
    List (Signal Int) → Option (List Int × Except String Int)
  | [] => none
  | .rateLimit resetAt :: rest =>
      let d := handleRateLimit resetAt now
      searchLoop query (now + d) (sleeps ++ [d]) rest
  | .secondaryLimit retryAfter :: rest =>
      let d := handleSecondaryRateLimit retryAfter now
      searchLoop query (now + d) (sleeps ++ [d]) rest
  | .accepted :: rest => searchLoop query now sleeps rest
  | .err m :: _ => some (sleeps, .error ("failed to search: " ++ query ++ ": " ++ m))
  | .ok v :: _ => some (sleeps, .ok v)

/-- `getOrgMembers` (stats.go:183-234): pages through
`client.Organizations.ListMembers`, retrying on primary and secondary
rate limits; any other non-nil error — including an `AcceptedError`,
which none of the two type checks match — is wrapped
`"failed to list organization members: %w"` and returned.  Successful
pages accumulate member logins until `resp.NextPage == 0`. -/
def getOrgMembersLoop (now : Int) (members : List String) :
    List (Signal (Page String)) → Option (Except String (List String))
  | [] => none
  | .rateLimit resetAt :: rest =>
      getOrgMembersLoop (now + handleRateLimit resetAt now) members rest
  | .secondaryLimit retryAfter :: rest =>
      getOrgMembersLoop (now + handleSecondaryRateLimit retryAfter now) members rest
  | .accepted :: _ =>
      some (.error
        "failed to list organization members: job scheduled on GitHub side; try again later")
  | .err m :: _ => some (.error ("failed to list organization members: " ++ m))
  | .ok page :: rest =>
      let members := members ++ page.items
      if page.nextPage = 0 then some (.ok members)
      else getOrgMembersLoop now members rest

/-- Week counters of one `github.WeeklyStats`: the week start time plus
the three counter pointers (`*int`, hence `Option Int`). -/
structure Week where
  week : Int
  additions : Option Int
  deletions : Option Int
  commits : Option Int
deriving DecidableEq

/-- One `github.ContributorStats`: the author (a `*Contributor`; `none`
models a nil author, `some login` a non-nil author whose `GetLogin()`
returns `login`, possibly `""`) and the weekly series. -/
structure ContributorStats where
  author : Option String
  weeks : List Week
deriving DecidableEq

/-- One `github.Repository` together with the contributor statistics the
upstream eventually serves for it (the model of what `getStats`
ultimately returns after retries). -/
structure Repo where
  name : String
  fork : Bool
  stats : List ContributorStats
deriving DecidableEq

/-- `repos` (stats.go:393-420): pages through
`client.Repositories.ListByOrg`, retrying primary and secondary rate
limits; any other non-nil error — again including an `AcceptedError` —
is returned to the caller.  Pages accumulate until `resp.NextPage == 0`. -/
def reposLoop (now : Int) (allRepos : List Repo) :
    List (Signal (Page Repo)) → Option (Except String (List Repo))
  | [] => none
  | .rateLimit resetAt :: rest =>
      reposLoop (now + handleRateLimit resetAt now) allRepos rest
  | .secondaryLimit retryAfter :: rest =>
      reposLoop (now + handleSecondaryRateLimit retryAfter now) allRepos rest
  | .accepted :: _ =>
      some (.error "job scheduled on GitHub side; try again later")
  | .err m :: _ => some (.error m)
  | .ok page :: rest =>
      let allRepos := allRepos ++ page.items
      if page.nextPage = 0 then some (.ok allRepos)
      else reposLoop now allRepos rest

/-- `getStats` (stats.go:422-438): calls
`client.Repositories.ListContributorsStats`, retrying on primary rate
limit, secondary rate limit and `AcceptedError`; any other error is
returned unwrapped; success returns the statistics. -/
def getStatsLoop (now : Int) :
    List (Signal (List ContributorStats)) → Option (Except String (List ContributorStats))
  | [] => none
  | .rateLimit resetAt :: rest =>
      getStatsLoop (now + handleRateLimit resetAt now) rest
  | .secondaryLimit retryAfter :: rest =>
      getStatsLoop (now + handleSecondaryRateLimit retryAfter now) rest
  | .accepted :: rest => getStatsLoop now rest
  | .err m :: _ => some (.error m)
  | .ok v :: _ => some (.ok v)

/-- `Stat` (stats.go:16-18): one user's additions, deletions, commits and
reviews counts (Go `int`). -/
structure Stat where
  additions : Int := 0
  deletions : Int := 0
  commits : Int := 0
  reviews : Int := 0
deriving DecidableEq

/-- The zero `Stat`, the value a Go map read yields for an absent key. -/
def Stat.zero : Stat := {}

/-- Go map read `s.data[login]`: the stored value, or the zero `Stat`. -/
def lookupStat (d : List (String × Stat)) (k : String) : Stat :=
  match d with
  | [] => Stat.zero
  | (k', v) :: rest => if k' = k then v else lookupStat rest k

/-- Go map write `s.data[login] = stat`: replace if present, insert
otherwise. -/
def insertStat (d : List (String × Stat)) (k : String) (v : Stat) :
    List (String × Stat) :=
  match d with
  | [] => [(k, v)]
  | (k', v') :: rest =>
      if k' = k then (k, v) :: rest else (k', v') :: insertStat rest k v

/-- `Stats` (stats.go:20-24): the user → `Stat` mapping plus the `since`
cutoff (`none` = Go zero time = no cutoff). -/
structure Stats where
  data : List (String × Stat)
  since : Option Int
deriving DecidableEq

/-- `NewStats` (stats.go:39-44). -/
def NewStats (since : Option Int) : Stats := { data := [], since := since }

/-- `Stats.Logins` (stats.go:26-32): the known user identifiers. -/
def Stats.Logins (s : Stats) : List String := s.data.map Prod.fst

/-- `Stats.For` (stats.go:34-36): a user's record, zero if absent. -/
def Stats.For (s : Stats) (login : String) : Stat := lookupStat s.data login

/-- The week-skipping test of `Stats.add` (stats.go:376):
`!s.since.IsZero() && week.Week.Time.UTC().Before(s.since)`. -/
def weekSkipped (since : Option Int) (w : Week) : Bool :=
  match since with
  | none => false
  | some c => decide (w.week < c)

/-- The accumulation loop of `Stats.add` (stats.go:375-382): fold the
weekly series into `(adds, rms, commits)`, skipping weeks strictly before
the cutoff; a non-skipped week with a missing (`nil`) counter pointer is
the panic branch, `none`. -/
def foldWeeks (since : Option Int) : List Week → Option (Int × Int × Int)
  | [] => some (0, 0, 0)
  | w :: ws =>
      if weekSkipped since w then foldWeeks since ws
      else
        match w.additions, w.deletions, w.commits, foldWeeks since ws with
        | some a, some d, some c, some (ta, td, tc) =>
            some (a + ta, d + td, c + tc)
        | _, _, _, _ => none

/-- `(*Stats).add` (stats.go:367-391): returns early on a nil author;
folds the weeks; adds the subtotal onto the stored record; if the updated
record's `Additions+Deletions+Commits` is zero and a `since` cutoff is
set, the update is discarded (the map is not written); otherwise the
record is written back.  `none` is the nil-pointer panic from a missing
weekly counter. -/
def Stats.add (s : Stats) (cs : ContributorStats) : Option Stats :=
  match cs.author with
  | none => some s
  | some login =>
      match foldWeeks s.since cs.weeks with
      | none => none
      | some (adds, rms, commits) =>
          let stat := lookupStat s.data login
          let stat : Stat :=
            { stat with
              additions := stat.additions + adds
              deletions := stat.deletions + rms
              commits := stat.commits + commits }
          if stat.additions + stat.deletions + stat.commits = 0 ∧ s.since.isSome = true then
            some s
          else
            some { s with data := insertStat s.data login stat }

/-- `(*Stats).addReviewStats` (stats.go:361-365): add the review count
onto the user's stored record. -/
def Stats.addReviewStats (s : Stats) (user : String) (reviewed : Int) : Stats :=
  let stat := lookupStat s.data user
  { s with data := insertStat s.data user { stat with reviews := stat.reviews + reviewed } }

/-- `strings.EqualFold`: case-insensitive string equality, modelled as
equality after folding every character to lower case. -/
def equalFold (a b : String) : Bool :=
  a.data.map Char.toLower == b.data.map Char.toLower

/-- `isBlacklisted` (stats.go:338-345): true iff some entry matches
case-insensitively. -/
def isBlacklisted (blacklist : List String) (s : String) : Bool :=
  blacklist.any fun b => equalFold s b

/-- `isWhitelisted` (stats.go:348-359): false on an empty list, otherwise
true iff some entry matches case-insensitively. -/
def isWhitelisted (whitelist : List String) (s : String) : Bool :=
  if whitelist.length = 0 then false
  else whitelist.any fun w => equalFold s w

/-- The per-contributor body of the `gatherLineStats` inner loop
(stats.go:292-333): skip a nil author or empty login; skip a user who is
neither an organization member nor whitelisted; skip a blacklisted user;
otherwise `allStats.add(cs)`. -/
def processContributor (orgMembers : List String)
    (userBlacklist userWhitelist : List String)
    (st : Stats) (cs : ContributorStats) : Option Stats :=
  match cs.author with
  | none => some st
  | some login =>
      if login = "" then some st
      else if !(orgMembers.contains login) && !(isWhitelisted userWhitelist login) then
        some st
      else if isBlacklisted userBlacklist login then some st
      else st.add cs

/-- The inner contributor loop of `gatherLineStats` over one repository's
statistics. -/
def processRepoContribs (orgMembers : List String)
    (userBlacklist userWhitelist : List String)
    (st : Stats) : List ContributorStats → Option Stats
  | [] => some st
  | cs :: rest =>
      match processContributor orgMembers userBlacklist userWhitelist st cs with
      | none => none
      | some st' => processRepoContribs orgMembers userBlacklist userWhitelist st' rest

/-- The per-repository body of `gatherLineStats` (stats.go:265-334): skip
a fork when `excludeForks`, skip a blacklisted repository, otherwise fetch
the repository's contributor statistics and process each contributor. -/
def gatherRepo (orgMembers : List String)
    (userBlacklist repoBlacklist userWhitelist : List String)
    (excludeForks : Bool) (st : Stats) (repo : Repo) : Option Stats :=
  if excludeForks && repo.fork then some st
  else if isBlacklisted repoBlacklist repo.name then some st
  else processRepoContribs orgMembers userBlacklist userWhitelist st repo.stats

/-- `gatherLineStats` (stats.go:236-336), given the already-resolved
membership set and repository list: fold every repository into the
accumulator.  `repoWhitelist` is a parameter of the Go function that its
body never reads. -/
def gatherLineStats (orgMembers : List String)
    (userBlacklist repoBlacklist userWhitelist repoWhitelist : List String)
    (excludeForks : Bool) (st : Stats) : List Repo → Option Stats
  | [] => some st
  | repo :: rest =>
      match gatherRepo orgMembers userBlacklist repoBlacklist userWhitelist
          excludeForks st repo with
      | none => none
      | some st' =>
          gatherLineStats orgMembers userBlacklist repoBlacklist userWhitelist
            repoWhitelist excludeForks st' rest

/-- The review pass of `Gather` (stats.go:97-112): for every user already
in the accumulator, add the search result (`reviewCounts user` models the
total count the retried search eventually returns) via `addReviewStats`. -/
def reviewPass (reviewCounts : String → Int) (st : Stats) : Stats :=
  st.Logins.foldl (fun s u => s.addReviewStats u (reviewCounts u)) st

/-- `Gather` (stats.go:47-115), given the resolved membership set, the
repository list and the upstream review counts: run `gatherLineStats`
from a fresh `NewStats since`, then, when `includeReviewStats`, the
review pass.  `verbose` only controls logging; `repoWhitelist` is passed
down but never read. -/
def Gather (orgMembers : List String) (repoList : List Repo)
    (userBlacklist repoBlacklist userWhitelist repoWhitelist : List String)
    (since : Option Int) (includeReviewStats excludeForks verbose : Bool)
    (reviewCounts : String → Int) : Option Stats :=
  match gatherLineStats orgMembers userBlacklist repoBlacklist userWhitelist
      repoWhitelist excludeForks (NewStats since) repoList with
  | none => none
  | some st =>
      if includeReviewStats then some (reviewPass reviewCounts st)
      else some st

/-- `buildBlacklists` (cmd layer): split one raw list into the user-scoped
and repo-scoped lists by the `user:` / `repo:` prefix convention;
unprefixed entries go to both. -/
def buildBlacklists : List String → List String × List String
  | [] => ([], [])
  | b :: rest =>
      let (us, rs) := buildBlacklists rest
      if b.startsWith "user:" then ((b.drop 5) :: us, rs)
      else if b.startsWith "repo:" then (us, (b.drop 5) :: rs)
      else (b :: us, b :: rs)

/-- `buildWhitelists` (cmd layer): same splitting for the allow-list. -/
def buildWhitelists : List String → List String × List String
  | [] => ([], [])
  | w :: rest =>
      let (us, rs) := buildWhitelists rest
      if w.startsWith "user:" then ((w.drop 5) :: us, rs)
      else if w.startsWith "repo:" then (us, (w.drop 5) :: rs)
      else (w :: us, w :: rs)

/-! ### Helper lemmas about the map embedding -/

theorem lookupStat_insertStat (d : List (String × Stat)) (k x : String) (v : Stat) :
    lookupStat (insertStat d k v) x = if k = x then v else lookupStat d x := by
  induction d with
  | nil => simp [insertStat, lookupStat]
  | cons p rest ih =>
    obtain ⟨k', v'⟩ := p
    by_cases hk : k' = k
    · subst hk
      simp only [insertStat, if_pos rfl, lookupStat]
      by_cases hx : k' = x <;> simp [lookupStat, hx]
    · simp only [insertStat, if_neg hk, lookupStat]
      by_cases hx : k' = x
      · subst hx
        have : ¬ k = k' := fun h => hk h.symm
        simp [this]
      · simp [hx, ih]

theorem mem_insertStat_keys (d : List (String × Stat)) (k x : String) (v : Stat) :
    x ∈ (insertStat d k v).map Prod.fst ↔ x = k ∨ x ∈ d.map Prod.fst := by
  induction d with
  | nil => simp [insertStat]
  | cons p rest ih =>
    obtain ⟨k', v'⟩ := p
    by_cases hk : k' = k
    · subst hk
      simp only [insertStat, if_pos rfl]
      simp [eq_comm]
    · simp only [insertStat, if_neg hk, List.map_cons, List.mem_cons, ih]
      tauto

theorem lookupStat_absent (d : List (String × Stat)) (x : String)
    (h : x ∉ d.map Prod.fst) : lookupStat d x = Stat.zero := by
  induction d with
  | nil => rfl
  | cons p rest ih =>
    obtain ⟨k', v'⟩ := p
    simp only [List.map_cons, List.mem_cons] at h
    push_neg at h
    have hne : k' ≠ x := fun he => h.1 he.symm
    simp [lookupStat, hne, ih h.2]

/-! ### Claims about the retry wrappers (C1, C2, C3) -/

/-- C1 counterexample: the claim says the primary-rate-limit handler
sleeps `max(resetAt - now, 5s)`; at `resetAt - now = 2` the code sleeps
2 s (the 5 s floor applies only to negative durations), and the
rate-limit-then-success search run records that single 2 s sleep. -/
theorem searchPrimarySleep_counterexample :
    searchLoop "q" 0 [] [.rateLimit 2, .ok 7] = some ([2], .ok 7) ∧
    specPrimarySleep 2 0 = 5 ∧
    handleRateLimit 2 0 ≠ specPrimarySleep 2 0 := by
  refine ⟨rfl, rfl, by decide⟩

/-- C1 (amended): on a primary-rate-limit response the retry wrapper
sleeps `resetAt - now` when that is non-negative and 5 s otherwise, then
retries the same operation; a call that returns primary-rate-limit once
and then succeeds returns the success result having slept exactly once. -/
theorem searchPrimaryRateLimitRetry (query : String) (now resetAt v : Int)
    (sleeps : List Int) (rest : List (Signal Int)) :
    handleRateLimit resetAt now =
      (if resetAt - now < 0 then 5 else resetAt - now) ∧
    searchLoop query now sleeps (.rateLimit resetAt :: rest) =
      searchLoop query (now + handleRateLimit resetAt now)
        (sleeps ++ [handleRateLimit resetAt now]) rest ∧
    searchLoop query now [] [.rateLimit resetAt, .ok v] =
      some ([handleRateLimit resetAt now], .ok v) := by
  refine ⟨rfl, rfl, rfl⟩

/-- C3 counterexample: the claim says the secondary-rate-limit handler
sleeps `max(retryAfter - now, 10s)`; at `retryAfter - now = 3` the code
sleeps 3 s (the 10 s floor applies only to negative durations). -/
theorem searchSecondarySleep_counterexample :
    searchLoop "q" 0 [] [.secondaryLimit 3, .ok 7] = some ([3], .ok 7) ∧
    specSecondarySleep 3 0 = 10 ∧
    handleSecondaryRateLimit 3 0 ≠ specSecondarySleep 3 0 := by
  refine ⟨rfl, rfl, by decide⟩

/-- C3 (amended): on a secondary-rate-limit response the retry wrapper
sleeps `retryAfter - now` when that is non-negative and 10 s otherwise,
then retries the same operation. -/
theorem searchSecondaryRateLimitRetry (query : String) (now retryAfter v : Int)
    (sleeps : List Int) (rest : List (Signal Int)) :
    handleSecondaryRateLimit retryAfter now =
      (if retryAfter - now < 0 then 10 else retryAfter - now) ∧
    searchLoop query now sleeps (.secondaryLimit retryAfter :: rest) =
      searchLoop query (now + handleSecondaryRateLimit retryAfter now)
        (sleeps ++ [handleSecondaryRateLimit retryAfter now]) rest ∧
    searchLoop query now [] [.secondaryLimit retryAfter, .ok v] =
      some ([handleSecondaryRateLimit retryAfter now], .ok v) := by
  refine ⟨rfl, rfl, rfl⟩

/-- C2 counterexample: an accepted-but-not-ready (HTTP 202) response to
the organization-members listing is not retried — it is surfaced to the
caller as a terminal error (only the two rate-limit errors are matched
before the generic error return). -/
theorem accepted_surfaced_counterexample :
    getOrgMembersLoop 0 [] [.accepted] =
      some (.error
        "failed to list organization members: job scheduled on GitHub side; try again later") ∧
    reposLoop 0 [] [.accepted] =
      some (.error "job scheduled on GitHub side; try again later") := by
  exact ⟨rfl, rfl⟩

/-- C2 (amended): the accepted-but-not-ready signal is retried
immediately (no sleep) and never surfaced by the contributor-statistics
fetch and by search, but the organization-members and repository listing
loops surface it to the caller as a terminal error. -/
theorem acceptedSignalHandling (query : String) (now : Int) (sleeps : List Int)
    (restI : List (Signal Int)) (restS : List (Signal (List ContributorStats)))
    (members : List String) (accRepos : List Repo)
    (restM : List (Signal (Page String))) (restR : List (Signal (Page Repo))) :
    searchLoop query now sleeps (.accepted :: restI) =
      searchLoop query now sleeps restI ∧
    getStatsLoop now (.accepted :: restS) = getStatsLoop now restS ∧
    (∃ e, getOrgMembersLoop now members (.accepted :: restM) = some (.error e)) ∧
    (∃ e, reposLoop now accRepos (.accepted :: restR) = some (.error e)) := by
  exact ⟨rfl, rfl, ⟨_, rfl⟩, ⟨_, rfl⟩⟩

/-! ### Claims about the fold over weeks (C7) -/

/-- C7: with a `since` cutoff, a week whose start timestamp is strictly
before the cutoff contributes zero to all three counters (dropping it
does not change the fold), and the fold equals the unrestricted sum of
exactly the weeks at or after the cutoff. -/
theorem sinceCutoffWeeks (c : Int) (w : Week) (ws : List Week) :
    (w.week < c → foldWeeks (some c) (w :: ws) = foldWeeks (some c) ws) ∧
    foldWeeks (some c) ws =
      foldWeeks none (ws.filter fun w => decide (c ≤ w.week)) := by
  constructor
  · intro h
    simp [foldWeeks, weekSkipped, h]
  · induction ws with
    | nil => rfl
    | cons w ws ih =>
      by_cases h : w.week < c
      · have hf : (decide (c ≤ w.week)) = false := by
          simp [decide_eq_false_iff_not, not_le, h]
        simp [foldWeeks, weekSkipped, h, List.filter, hf, ih]
      · have ht : (decide (c ≤ w.week)) = true := by
          simp [not_lt.mp h]
        simp [foldWeeks, weekSkipped, h, List.filter, ht, ih]

/-- C7 witness at a concrete input: cutoff 10, one week at 5 (before the
cutoff, skipped) and one at 10 (kept). -/
theorem sinceCutoffWeeks_witness :
    ((5 : Int) < 10 ∧
      foldWeeks (some 10) [⟨5, some 1, some 2, some 3⟩, ⟨10, some 4, some 5, some 6⟩] =
        foldWeeks (some 10) [⟨10, some 4, some 5, some 6⟩]) ∧
    foldWeeks (some 10) [⟨10, some 4, some 5, some 6⟩] =
      foldWeeks none
        (([⟨10, some 4, some 5, some 6⟩] : List Week).filter fun w => decide ((10:Int) ≤ w.week)) := by
  refine ⟨⟨by decide, ?_⟩, ?_⟩
  · exact (sinceCutoffWeeks 10 ⟨5, some 1, some 2, some 3⟩
      [⟨10, some 4, some 5, some 6⟩]).1 (by decide)
  · exact (sinceCutoffWeeks 10 ⟨5, some 1, some 2, some 3⟩
      [⟨10, some 4, some 5, some 6⟩]).2

/-! ### Repo allow-list has no effect (C8) -/

theorem gatherLineStats_repoWhitelist_irrel (orgMembers ub rb uw : List String)
    (rw₁ rw₂ : List String) (excludeForks : Bool) :
    ∀ (repoList : List Repo) (st : Stats),
    gatherLineStats orgMembers ub rb uw rw₁ excludeForks st repoList =
      gatherLineStats orgMembers ub rb uw rw₂ excludeForks st repoList := by
  intro repoList
  induction repoList with
  | nil => intro st; rfl
  | cons repo rest ih =>
    intro st
    simp only [gatherLineStats]
    cases gatherRepo orgMembers ub rb uw excludeForks st repo with
    | none => rfl
    | some st' => exact ih st'

/-- C8: two aggregation runs that differ only in the repo-scoped
allow-list produce the same aggregate — the repository allow-list is
accepted as configuration but never read. -/
theorem repoWhitelistNoEffect (orgMembers : List String) (repoList : List Repo)
    (ub rb uw : List String) (rw₁ rw₂ : List String) (since : Option Int)
    (includeReviewStats excludeForks verbose : Bool)
    (reviewCounts : String → Int) :
    Gather orgMembers repoList ub rb uw rw₁ since includeReviewStats
        excludeForks verbose reviewCounts =
      Gather orgMembers repoList ub rb uw rw₂ since includeReviewStats
        excludeForks verbose reviewCounts := by
  simp only [Gather,
    gatherLineStats_repoWhitelist_irrel orgMembers ub rb uw rw₁ rw₂
      excludeForks repoList (NewStats since)]

/-! ### Structural lemmas about `Stats.add` -/

theorem Stats.add_since {s s' : Stats} {cs : ContributorStats}
    (h : s.add cs = some s') : s'.since = s.since := by
  unfold Stats.add at h
  cases hcs : cs.author with
  | none => rw [hcs] at h; cases h; rfl
  | some login =>
    rw [hcs] at h
    cases hf : foldWeeks s.since cs.weeks with
    | none => rw [hf] at h; cases h
    | some t =>
      obtain ⟨adds, rms, commits⟩ := t
      rw [hf] at h
      simp only at h
      split at h <;> cases h <;> rfl

theorem Stats.add_mem_logins {s s' : Stats} {cs : ContributorStats} {x : String}
    (h : s.add cs = some s') (hx : x ∈ s'.Logins) :
    x ∈ s.Logins ∨ cs.author = some x := by
  unfold Stats.add at h
  cases hcs : cs.author with
  | none => rw [hcs] at h; cases h; exact Or.inl hx
  | some login =>
    rw [hcs] at h
    cases hf : foldWeeks s.since cs.weeks with
    | none => rw [hf] at h; cases h
    | some t =>
      obtain ⟨adds, rms, commits⟩ := t
      rw [hf] at h
      simp only at h
      split at h
      · cases h; exact Or.inl hx
      · cases h
        simp only [Stats.Logins] at hx
        rcases (mem_insertStat_keys _ _ _ _).mp hx with h1 | h2
        · exact Or.inr (by rw [h1])
        · exact Or.inl h2

/-! ### Totality of the fold and reachability of the panic (C10) -/

theorem foldWeeks_total {since : Option Int} {ws : List Week}
    (h : ∀ w ∈ ws, w.additions.isSome ∧ w.deletions.isSome ∧ w.commits.isSome) :
    (foldWeeks since ws).isSome := by
  induction ws with
  | nil => simp [foldWeeks]
  | cons w ws ih =>
    have hw := h w (List.mem_cons_self w ws)
    have hrest := ih fun x hx => h x (List.mem_cons_of_mem w hx)
    by_cases hs : weekSkipped since w
    · simpa [foldWeeks, hs] using hrest
    · obtain ⟨a, ha⟩ := Option.isSome_iff_exists.mp hw.1
      obtain ⟨d, hd⟩ := Option.isSome_iff_exists.mp hw.2.1
      obtain ⟨c, hc⟩ := Option.isSome_iff_exists.mp hw.2.2
      obtain ⟨t, ht⟩ := Option.isSome_iff_exists.mp hrest
      obtain ⟨ta, td, tc⟩ := t
      simp [foldWeeks, hs, ha, hd, hc, ht]

/-- C10: `(*Stats).add` is total when every weekly entry carries all
three counters; with a counter missing in a week that survives the
cutoff check the nil-pointer panic branch is reached, while the same
missing counter in a week skipped by the cutoff is never dereferenced. -/
theorem addTotalOnlyWithFullWeeks :
    (∀ (s : Stats) (cs : ContributorStats),
       (∀ w ∈ cs.weeks, w.additions.isSome ∧ w.deletions.isSome ∧ w.commits.isSome) →
       (s.add cs).isSome) ∧
    (NewStats (some 0)).add ⟨some "u", [⟨0, none, some 1, some 1⟩]⟩ = none ∧
    (NewStats (some 5)).add ⟨some "u", [⟨0, none, some 1, some 1⟩]⟩ =
      some (NewStats (some 5)) := by
  refine ⟨?_, rfl, rfl⟩
  intro s cs h
  unfold Stats.add
  cases hcs : cs.author with
  | none => simp
  | some login =>
    have := @foldWeeks_total s.since cs.weeks h
    obtain ⟨t, ht⟩ := Option.isSome_iff_exists.mp this
    obtain ⟨adds, rms, commits⟩ := t
    rw [ht]
    simp only
    split <;> simp

/-- C10 witness: the totality half applied to a contributor whose single
week carries all three counters. -/
theorem addTotalOnlyWithFullWeeks_witness :
    ((NewStats (some 0)).add ⟨some "u", [⟨7, some 1, some 2, some 3⟩]⟩).isSome :=
  addTotalOnlyWithFullWeeks.1 (NewStats (some 0))
    ⟨some "u", [⟨7, some 1, some 2, some 3⟩]⟩ (by decide)

/-! ### Monotonicity of the merges (C9) -/

theorem foldWeeks_nonneg {since : Option Int} {ws : List Week}
    {adds rms commits : Int}
    (hw : ∀ w ∈ ws,
       w.additions.all (fun x => decide (0 ≤ x)) = true ∧
       w.deletions.all (fun x => decide (0 ≤ x)) = true ∧
       w.commits.all (fun x => decide (0 ≤ x)) = true)
    (h : foldWeeks since ws = some (adds, rms, commits)) :
    0 ≤ adds ∧ 0 ≤ rms ∧ 0 ≤ commits := by
  induction ws generalizing adds rms commits with
  | nil =>
    simp only [foldWeeks, Option.some_inj] at h
    obtain ⟨h1, h2, h3⟩ := Prod.mk.injEq .. ▸ h
    simp_all
  | cons w ws ih =>
    have hhd := hw w (List.mem_cons_self w ws)
    have htl := fun x hx => hw x (List.mem_cons_of_mem w hx)
    by_cases hs : weekSkipped since w
    · rw [foldWeeks, if_pos hs] at h
      exact ih htl h
    · rw [foldWeeks, if_neg hs] at h
      cases ha : w.additions with
      | none => rw [ha] at h; cases h
      | some a =>
        cases hd : w.deletions with
        | none => rw [ha, hd] at h; cases h
        | some d =>
          cases hc : w.commits with
          | none => rw [ha, hd, hc] at h; cases h
          | some c =>
            cases hf : foldWeeks since ws with
            | none => rw [ha, hd, hc, hf] at h; cases h
            | some t =>
              obtain ⟨ta, td, tc⟩ := t
              rw [ha, hd, hc, hf] at h
              simp only [Option.some_inj, Prod.mk.injEq] at h
              obtain ⟨e1, e2, e3⟩ := h
              have h1 := ih htl hf
              rw [ha] at hhd
              rw [hd] at hhd
              rw [hc] at hhd
              simp only [Option.all_some, decide_eq_true_eq] at hhd
              refine ⟨?_, ?_, ?_⟩
              · rw [← e1]; exact add_nonneg hhd.1 h1.1
              · rw [← e2]; exact add_nonneg hhd.2.1 h1.2.1
              · rw [← e3]; exact add_nonneg hhd.2.2 h1.2.2

/-- C9: no merge operation ever decrements a stored field — given
non-negative upstream weekly counters, `add` leaves every user's four
fields at least as large as before, and given a non-negative review
count so does `addReviewStats`. -/
theorem mergeMonotone :
    (∀ (s : Stats) (cs : ContributorStats) (s' : Stats),
       (∀ w ∈ cs.weeks,
          w.additions.all (fun x => decide (0 ≤ x)) = true ∧
          w.deletions.all (fun x => decide (0 ≤ x)) = true ∧
          w.commits.all (fun x => decide (0 ≤ x)) = true) →
       s.add cs = some s' →
       ∀ u, (s.For u).additions ≤ (s'.For u).additions ∧
            (s.For u).deletions ≤ (s'.For u).deletions ∧
            (s.For u).commits ≤ (s'.For u).commits ∧
            (s.For u).reviews ≤ (s'.For u).reviews) ∧
    (∀ (s : Stats) (user : String) (reviewed : Int),
       0 ≤ reviewed →
       ∀ u, (s.For u).additions ≤ ((s.addReviewStats user reviewed).For u).additions ∧
            (s.For u).deletions ≤ ((s.addReviewStats user reviewed).For u).deletions ∧
            (s.For u).commits ≤ ((s.addReviewStats user reviewed).For u).commits ∧
            (s.For u).reviews ≤ ((s.addReviewStats user reviewed).For u).reviews) := by
  constructor
  · intro s cs s' hw h u
    unfold Stats.add at h
    cases hcs : cs.author with
    | none => rw [hcs] at h; cases h; exact ⟨le_refl _, le_refl _, le_refl _, le_refl _⟩
    | some login =>
      rw [hcs] at h
      cases hf : foldWeeks s.since cs.weeks with
      | none => rw [hf] at h; cases h
      | some t =>
        obtain ⟨adds, rms, commits⟩ := t
        rw [hf] at h
        simp only at h
        have hnn := foldWeeks_nonneg hw hf
        split at h
        · cases h; exact ⟨le_refl _, le_refl _, le_refl _, le_refl _⟩
        · cases h
          simp only [Stats.For, lookupStat_insertStat]
          by_cases hu : login = u
          · subst hu
            simp only [if_pos rfl]
            exact ⟨le_add_of_nonneg_right hnn.1, le_add_of_nonneg_right hnn.2.1,
              le_add_of_nonneg_right hnn.2.2, le_refl _⟩
          · simp only [if_neg hu]
            exact ⟨le_refl _, le_refl _, le_refl _, le_refl _⟩
  · intro s user reviewed hr u
    simp only [Stats.addReviewStats, Stats.For, lookupStat_insertStat]
    by_cases hu : user = u
    · subst hu
      simp only [if_pos rfl]
      exact ⟨le_refl _, le_refl _, le_refl _, le_add_of_nonneg_right hr⟩
    · simp only [if_neg hu]
      exact ⟨le_refl _, le_refl _, le_refl _, le_refl _⟩

/-- C9 witness: both halves applied for user `"a"` at a concrete
accumulator, contributor and review count. -/
theorem mergeMonotone_witness :
    (({ data := [("a", ⟨1, 2, 3, 4⟩)], since := none } : Stats).For "a").additions ≤
      ((({ data := [("a", ⟨1, 2, 3, 4⟩)], since := none } : Stats).addReviewStats "a" 7).For "a").additions ∧
    (∀ u, (({ data := [("a", ⟨1, 2, 3, 4⟩)], since := none } : Stats).For u).additions ≤
       (({ data := [("a", ⟨3, 3, 4, 4⟩)], since := none } : Stats).For u).additions ∧
       (({ data := [("a", ⟨1, 2, 3, 4⟩)], since := none } : Stats).For u).deletions ≤
       (({ data := [("a", ⟨3, 3, 4, 4⟩)], since := none } : Stats).For u).deletions ∧
       (({ data := [("a", ⟨1, 2, 3, 4⟩)], since := none } : Stats).For u).commits ≤
       (({ data := [("a", ⟨3, 3, 4, 4⟩)], since := none } : Stats).For u).commits ∧
       (({ data := [("a", ⟨1, 2, 3, 4⟩)], since := none } : Stats).For u).reviews ≤
       (({ data := [("a", ⟨3, 3, 4, 4⟩)], since := none } : Stats).For u).reviews) := by
  constructor
  · exact ((mergeMonotone.2 { data := [("a", ⟨1, 2, 3, 4⟩)], since := none } "a" 7
      (by decide)) "a").1
  · exact mergeMonotone.1 { data := [("a", ⟨1, 2, 3, 4⟩)], since := none }
      ⟨some "a", [⟨0, some 2, some 1, some 1⟩]⟩
      { data := [("a", ⟨3, 3, 4, 4⟩)], since := none }
      (by decide) (by decide)

/-! ### The zero-activity discard and the policy gates (C4, C5, C6) -/

theorem Stats.add_zero_discard {s : Stats} {cs : ContributorStats} {login : String}
    (hs : s.since.isSome = true) (ha : cs.author = some login)
    (habs : login ∉ s.Logins)
    (hf : foldWeeks s.since cs.weeks = some (0, 0, 0)) :
    s.add cs = some s := by
  have hl : lookupStat s.data login = Stat.zero := lookupStat_absent _ _ habs
  simp [Stats.add, ha, hf, hl, Stat.zero, hs]

theorem processContributor_cases (m ub uw : List String) (st : Stats)
    (cs : ContributorStats) :
    processContributor m ub uw st cs = some st ∨
    ∃ login, cs.author = some login ∧ isBlacklisted ub login = false ∧
      processContributor m ub uw st cs = st.add cs := by
  unfold processContributor
  cases hcs : cs.author with
  | none => exact Or.inl rfl
  | some login =>
    by_cases h1 : login = ""
    · simp [h1]
    · cases hmem : m.contains login with
      | false =>
        have hmem' : login ∉ m := by simpa using hmem
        cases hwl : isWhitelisted uw login with
        | false => exact Or.inl (by simp [h1, hmem, hmem', hwl])
        | true =>
          cases hbl : isBlacklisted ub login with
          | true => exact Or.inl (by simp [h1, hmem, hmem', hwl, hbl])
          | false => exact Or.inr ⟨login, rfl, hbl, by simp [h1, hmem, hmem', hwl, hbl]⟩
      | true =>
        have hmem' : login ∈ m := by simpa using hmem
        cases hbl : isBlacklisted ub login with
        | true => exact Or.inl (by simp [h1, hmem, hmem', hbl])
        | false => exact Or.inr ⟨login, rfl, hbl, by simp [h1, hmem, hmem', hbl]⟩

theorem processContributor_since {m ub uw : List String} {st st' : Stats}
    {cs : ContributorStats}
    (h : processContributor m ub uw st cs = some st') : st'.since = st.since := by
  rcases processContributor_cases m ub uw st cs with hc | ⟨login, _, _, hc⟩
  · rw [hc] at h; cases h; rfl
  · rw [hc] at h; exact Stats.add_since h

theorem gatherRepo_cases (m ub rb uw : List String) (ef : Bool) (st : Stats)
    (repo : Repo) :
    gatherRepo m ub rb uw ef st repo = some st ∨
    gatherRepo m ub rb uw ef st repo = processRepoContribs m ub uw st repo.stats := by
  unfold gatherRepo
  by_cases h1 : (ef && repo.fork) = true
  · simp [h1]
  · by_cases h2 : isBlacklisted rb repo.name = true
    · simp [h1, h2]
    · simp [h1, h2]

theorem processRepoContribs_since (m ub uw : List String)
    (css : List ContributorStats) :
    ∀ {st st' : Stats},
    processRepoContribs m ub uw st css = some st' → st'.since = st.since := by
  induction css with
  | nil =>
    intro st st' h
    unfold processRepoContribs at h
    cases h; rfl
  | cons cs rest ih =>
    intro st st' h
    unfold processRepoContribs at h
    cases hp : processContributor m ub uw st cs with
    | none => rw [hp] at h; cases h
    | some st1 =>
      rw [hp] at h
      exact (ih h).trans (processContributor_since hp)

theorem gatherRepo_since {m ub rb uw : List String} {ef : Bool} {st st' : Stats}
    {repo : Repo}
    (h : gatherRepo m ub rb uw ef st repo = some st') : st'.since = st.since := by
  rcases gatherRepo_cases m ub rb uw ef st repo with hc | hc
  · rw [hc] at h; cases h; rfl
  · rw [hc] at h; exact processRepoContribs_since m ub uw repo.stats h

theorem processContributor_zero_absent {m ub uw : List String} {st st' : Stats}
    {cs : ContributorStats} {u : String} {t : Int}
    (hsince : st.since = some t) (habs : u ∉ st.Logins)
    (hz : cs.author = some u → foldWeeks (some t) cs.weeks = some (0, 0, 0))
    (h : processContributor m ub uw st cs = some st') : u ∉ st'.Logins := by
  rcases processContributor_cases m ub uw st cs with hc | ⟨login, hcs, -, hc⟩
  · rw [hc] at h; cases h; exact habs
  · rw [hc] at h
    by_cases hlu : login = u
    · subst hlu
      have hf : foldWeeks st.since cs.weeks = some (0, 0, 0) := by
        rw [hsince]; exact hz hcs
      have hd : st.add cs = some st :=
        Stats.add_zero_discard (by rw [hsince]; rfl) hcs habs hf
      rw [hd] at h; cases h; exact habs
    · intro hx
      rcases Stats.add_mem_logins h hx with hmem | hau
      · exact habs hmem
      · rw [hcs] at hau
        exact hlu (Option.some_inj.mp hau)

theorem processRepoContribs_zero_absent (m ub uw : List String)
    (css : List ContributorStats) (u : String) (t : Int) :
    ∀ {st st' : Stats}, st.since = some t → u ∉ st.Logins →
    (∀ cs ∈ css, cs.author = some u → foldWeeks (some t) cs.weeks = some (0, 0, 0)) →
    processRepoContribs m ub uw st css = some st' → u ∉ st'.Logins := by
  induction css with
  | nil =>
    intro st st' _ habs _ h
    unfold processRepoContribs at h
    cases h; exact habs
  | cons cs rest ih =>
    intro st st' hsince habs hz h
    unfold processRepoContribs at h
    cases hp : processContributor m ub uw st cs with
    | none => rw [hp] at h; cases h
    | some st1 =>
      rw [hp] at h
      exact ih ((processContributor_since hp).trans hsince)
        (processContributor_zero_absent hsince habs (hz cs (List.mem_cons_self _ _)) hp)
        (fun c hc => hz c (List.mem_cons_of_mem _ hc)) h

theorem gatherRepo_zero_absent {m ub rb uw : List String} {ef : Bool}
    {st st' : Stats} {repo : Repo} {u : String} {t : Int}
    (hsince : st.since = some t) (habs : u ∉ st.Logins)
    (hz : ∀ cs ∈ repo.stats, cs.author = some u → foldWeeks (some t) cs.weeks = some (0, 0, 0))
    (h : gatherRepo m ub rb uw ef st repo = some st') : u ∉ st'.Logins := by
  rcases gatherRepo_cases m ub rb uw ef st repo with hc | hc
  · rw [hc] at h; cases h; exact habs
  · rw [hc] at h
    exact processRepoContribs_zero_absent m ub uw repo.stats u t hsince habs hz h

theorem gatherLineStats_zero_absent (m ub rb uw rw : List String) (ef : Bool)
    (u : String) (t : Int) (repoList : List Repo) :
    ∀ {st st' : Stats}, st.since = some t → u ∉ st.Logins →
    (∀ repo ∈ repoList, ∀ cs ∈ repo.stats, cs.author = some u →
       foldWeeks (some t) cs.weeks = some (0, 0, 0)) →
    gatherLineStats m ub rb uw rw ef st repoList = some st' → u ∉ st'.Logins := by
  induction repoList with
  | nil =>
    intro st st' _ habs _ h
    unfold gatherLineStats at h
    cases h; exact habs
  | cons repo rest ih =>
    intro st st' hsince habs hz h
    unfold gatherLineStats at h
    cases hg : gatherRepo m ub rb uw ef st repo with
    | none => rw [hg] at h; cases h
    | some st1 =>
      rw [hg] at h
      exact ih ((gatherRepo_since hg).trans hsince)
        (gatherRepo_zero_absent hsince habs (hz repo (List.mem_cons_self _ _)) hg)
        (fun r hr => hz r (List.mem_cons_of_mem _ hr)) h

theorem processContributor_black_absent {m ub uw : List String} {st st' : Stats}
    {cs : ContributorStats} {u : String}
    (hb : isBlacklisted ub u = true) (habs : u ∉ st.Logins)
    (h : processContributor m ub uw st cs = some st') : u ∉ st'.Logins := by
  rcases processContributor_cases m ub uw st cs with hc | ⟨login, hcs, hnb, hc⟩
  · rw [hc] at h; cases h; exact habs
  · rw [hc] at h
    intro hx
    rcases Stats.add_mem_logins h hx with hmem | hau
    · exact habs hmem
    · rw [hcs] at hau
      have hlu : login = u := Option.some_inj.mp hau
      subst hlu
      exact Bool.noConfusion (hnb.symm.trans hb)

theorem processRepoContribs_black_absent (m ub uw : List String)
    (css : List ContributorStats) (u : String)
    (hb : isBlacklisted ub u = true) :
    ∀ {st st' : Stats}, u ∉ st.Logins →
    processRepoContribs m ub uw st css = some st' → u ∉ st'.Logins := by
  induction css with
  | nil =>
    intro st st' habs h
    unfold processRepoContribs at h
    cases h; exact habs
  | cons cs rest ih =>
    intro st st' habs h
    unfold processRepoContribs at h
    cases hp : processContributor m ub uw st cs with
    | none => rw [hp] at h; cases h
    | some st1 =>
      rw [hp] at h
      exact ih (processContributor_black_absent hb habs hp) h

theorem gatherRepo_black_absent {m ub rb uw : List String} {ef : Bool}
    {st st' : Stats} {repo : Repo} {u : String}
    (hb : isBlacklisted ub u = true) (habs : u ∉ st.Logins)
    (h : gatherRepo m ub rb uw ef st repo = some st') : u ∉ st'.Logins := by
  rcases gatherRepo_cases m ub rb uw ef st repo with hc | hc
  · rw [hc] at h; cases h; exact habs
  · rw [hc] at h
    exact processRepoContribs_black_absent m ub uw repo.stats u hb habs h

theorem gatherLineStats_black_absent (m ub rb uw rw : List String) (ef : Bool)
    (u : String) (repoList : List Repo)
    (hb : isBlacklisted ub u = true) :
    ∀ {st st' : Stats}, u ∉ st.Logins →
    gatherLineStats m ub rb uw rw ef st repoList = some st' → u ∉ st'.Logins := by
  induction repoList with
  | nil =>
    intro st st' habs h
    unfold gatherLineStats at h
    cases h; exact habs
  | cons repo rest ih =>
    intro st st' habs h
    unfold gatherLineStats at h
    cases hg : gatherRepo m ub rb uw ef st repo with
    | none => rw [hg] at h; cases h
    | some st1 =>
      rw [hg] at h
      exact ih (gatherRepo_black_absent hb habs hg) h

theorem gatherRepo_blacklisted_repo {m ub rb uw : List String} {ef : Bool}
    {st : Stats} {repo : Repo}
    (hb : isBlacklisted rb repo.name = true) :
    gatherRepo m ub rb uw ef st repo = some st := by
  unfold gatherRepo
  by_cases h1 : (ef && repo.fork) = true
  · simp [h1]
  · simp [h1, hb]

/-- C4: with a `since` cutoff set, an `add` whose updated cumulative
`additions+deletions+commits` is zero is discarded (the map is not
written); consequently a user with a cutoff and only zero-qualifying
activity never appears among the aggregate's identifiers; without a
cutoff, a contributor with all-zero weekly stats is still written and
appears with the zero record. -/
theorem sinceZeroActivity :
    (∀ (s : Stats) (cs : ContributorStats) (login : String) (adds rms commits : Int),
       s.since.isSome = true →
       cs.author = some login →
       foldWeeks s.since cs.weeks = some (adds, rms, commits) →
       ((lookupStat s.data login).additions + adds) +
         ((lookupStat s.data login).deletions + rms) +
         ((lookupStat s.data login).commits + commits) = 0 →
       s.add cs = some s) ∧
    (∀ (m ub rb uw rw : List String) (ef : Bool) (st st' : Stats) (u : String)
       (t : Int) (repoList : List Repo),
       st.since = some t → u ∉ st.Logins →
       (∀ repo ∈ repoList, ∀ cs ∈ repo.stats, cs.author = some u →
          foldWeeks (some t) cs.weeks = some (0, 0, 0)) →
       gatherLineStats m ub rb uw rw ef st repoList = some st' →
       u ∉ st'.Logins) ∧
    (∀ (s : Stats) (cs : ContributorStats) (login : String),
       s.since = none → cs.author = some login → login ∉ s.Logins →
       foldWeeks none cs.weeks = some (0, 0, 0) →
       ∃ s', s.add cs = some s' ∧ login ∈ s'.Logins ∧ s'.For login = Stat.zero) := by
  refine ⟨?_, ?_, ?_⟩
  · intro s cs login adds rms commits hs ha hf hzero
    simp only [Stats.add, ha, hf]
    split
    · rfl
    · rename_i hcon
      exact absurd ⟨hzero, hs⟩ hcon
  · intro m ub rb uw rw ef st st' u t repoList hsince habs hz h
    exact gatherLineStats_zero_absent m ub rb uw rw ef u t repoList hsince habs hz h
  · intro s cs login hs ha habs hf
    have hl : lookupStat s.data login = Stat.zero := lookupStat_absent _ _ habs
    have hadd : s.add cs = some { s with data := insertStat s.data login Stat.zero } := by
      simp [Stats.add, ha, hs, hf, hl, Stat.zero]
    refine ⟨_, hadd, ?_, ?_⟩
    · show login ∈ Stats.Logins _
      exact (mem_insertStat_keys _ login login Stat.zero).mpr (Or.inl rfl)
    · show Stats.For _ login = Stat.zero
      simp [Stats.For, lookupStat_insertStat]

/-- C4 witness: a cutoff run where the only activity of `"u"` is one
week before the cutoff (discarded, `"u"` absent), and a no-cutoff `add`
of an all-zero contributor `"z"` (recorded with the zero record). -/
theorem sinceZeroActivity_witness :
    (NewStats (some 5)).add ⟨some "u", [⟨1, some 3, some 4, some 5⟩]⟩ =
      some (NewStats (some 5)) ∧
    "u" ∉ (NewStats (some 5)).Logins ∧
    (∃ s', (NewStats none).add ⟨some "z", [⟨1, some 0, some 0, some 0⟩]⟩ = some s' ∧
       "z" ∈ s'.Logins ∧ s'.For "z" = Stat.zero) := by
  refine ⟨?_, ?_, ?_⟩
  · exact sinceZeroActivity.1 (NewStats (some 5))
      ⟨some "u", [⟨1, some 3, some 4, some 5⟩]⟩ "u" 0 0 0
      (by decide) rfl (by decide) (by decide)
  · exact sinceZeroActivity.2.1 ["u"] [] [] [] [] false (NewStats (some 5))
      (NewStats (some 5)) "u" 5
      [⟨"r", false, [⟨some "u", [⟨1, some 2, some 3, some 4⟩]⟩]⟩]
      rfl (by decide) (by decide) (by decide)
  · exact sinceZeroActivity.2.2 (NewStats none)
      ⟨some "z", [⟨1, some 0, some 0, some 0⟩]⟩ "z" rfl rfl (by decide) (by decide)

/-- C5: a user whose identifier case-insensitively matches a deny entry
never appears in the aggregate, whatever the allow-list and membership
set; and a repository whose name case-insensitively matches a repo deny
entry is skipped whole, leaving the accumulator untouched. -/
theorem denyListPrecedence :
    (∀ (m ub rb uw rw : List String) (ef : Bool) (st st' : Stats) (u : String)
       (repoList : List Repo),
       isBlacklisted ub u = true → u ∉ st.Logins →
       gatherLineStats m ub rb uw rw ef st repoList = some st' →
       u ∉ st'.Logins) ∧
    (∀ (m ub rb uw : List String) (ef : Bool) (st : Stats) (repo : Repo),
       isBlacklisted rb repo.name = true →
       gatherRepo m ub rb uw ef st repo = some st) := by
  constructor
  · intro m ub rb uw rw ef st st' u repoList hb habs h
    exact gatherLineStats_black_absent m ub rb uw rw ef u repoList hb habs h
  · intro m ub rb uw ef st repo hb
    exact gatherRepo_blacklisted_repo hb

/-- C5 witness: org member `"bob"` is denied via the case-differing
entry `"BOB"` and stays out of the aggregate even with nonzero stats;
repo `"secret"` matches deny entry `"SECRET"` and is skipped whole. -/
theorem denyListPrecedence_witness :
    "bob" ∉ (NewStats none).Logins ∧
    gatherRepo ["bob"] [] ["SECRET"] [] false (NewStats none)
      ⟨"secret", false, [⟨some "bob", [⟨1, some 2, some 3, some 4⟩]⟩]⟩ =
      some (NewStats none) := by
  constructor
  · exact denyListPrecedence.1 ["bob"] ["BOB"] [] [] [] false (NewStats none)
      (NewStats none) "bob"
      [⟨"r", false, [⟨some "bob", [⟨1, some 2, some 3, some 4⟩]⟩]⟩]
      (by decide) (by decide) (by decide)
  · exact denyListPrecedence.2 ["bob"] [] ["SECRET"] [] false (NewStats none)
      ⟨"secret", false, [⟨some "bob", [⟨1, some 2, some 3, some 4⟩]⟩]⟩ (by decide)

/-- C6: `isWhitelisted` on an empty list is always false (membership is
then the only inclusion path); a non-member whose login matches the
allow-list case-insensitively and is not denied is processed exactly as
an organization member is — both reduce to the same `allStats.add`. -/
theorem allowListInclusion :
    (∀ s : String, isWhitelisted [] s = false) ∧
    (∀ (m ub uw : List String) (st : Stats) (cs : ContributorStats) (login : String),
       cs.author = some login → login ≠ "" →
       m.contains login = false → isWhitelisted uw login = true →
       isBlacklisted ub login = false →
       processContributor m ub uw st cs = st.add cs) ∧
    (∀ (m ub uw : List String) (st : Stats) (cs : ContributorStats) (login : String),
       cs.author = some login → login ≠ "" →
       m.contains login = true →
       isBlacklisted ub login = false →
       processContributor m ub uw st cs = st.add cs) := by
  refine ⟨fun s => rfl, ?_, ?_⟩
  · intro m ub uw st cs login ha hne hc hw hb
    have hc' : login ∉ m := by simpa using hc
    simp [processContributor, ha, hne, hc, hc', hw, hb]
  · intro m ub uw st cs login ha hne hc hb
    have hc' : login ∈ m := by simpa using hc
    simp [processContributor, ha, hne, hc, hc', hb]

/-- C6 witness: non-member `"alice"` allow-listed as `"ALICE"` is
processed identically to member `"alice"`, and the empty allow-list
admits nobody. -/
theorem allowListInclusion_witness :
    isWhitelisted [] "alice" = false ∧
    processContributor ["m1"] [] ["ALICE"] (NewStats none)
      ⟨some "alice", [⟨1, some 2, some 3, some 4⟩]⟩ =
      (NewStats none).add ⟨some "alice", [⟨1, some 2, some 3, some 4⟩]⟩ ∧
    processContributor ["alice"] [] [] (NewStats none)
      ⟨some "alice", [⟨1, some 2, some 3, some 4⟩]⟩ =
      (NewStats none).add ⟨some "alice", [⟨1, some 2, some 3, some 4⟩]⟩ := by
  refine ⟨allowListInclusion.1 "alice", ?_, ?_⟩
  · exact allowListInclusion.2.1 ["m1"] [] ["ALICE"] (NewStats none)
      ⟨some "alice", [⟨1, some 2, some 3, some 4⟩]⟩ "alice"
      rfl (by decide) (by decide) (by decide) (by decide)
  · exact allowListInclusion.2.2 ["alice"] [] [] (NewStats none)
      ⟨some "alice", [⟨1, some 2, some 3, some 4⟩]⟩ "alice"
      rfl (by decide) (by decide) (by decide)

end OrgStats
